import Mathlib

/-!
Verification development for the WS-Discovery engine of airscan-discover.

The Go source is shallowly embedded: strings are lists of characters
(`Str`), Go stdlib routines used by the code (`strings.LastIndexByte`,
`strings.Trim`, `strings.Fields`, `bytes.TrimSpace`, `net.ParseIP`,
`net/url.Parse`, `URL.String`) are modelled byte-faithfully for the ASCII
inputs the protocol produces, and the repository functions
(`fixIpv6URLZone`, `alreadyKnown`, `parseHosted`, `getMetadata`'s response
decoding, `handleUDPMessage`, `XMLDecode`) are direct translations.
Effectful boundaries (UDP, HTTP, the XML tokenizer of encoding/xml) enter
as explicit inputs: token lists, decoded element lists, and a fetch
oracle; emissions and fetches are returned as lists.
-/

/-- Strings are modelled as lists of characters. -/
abbrev Str := List Char

/-! ### Character classes (Go compares bytes numerically; we use code points,
which coincide on the ASCII range the protocol uses) -/

/-- ASCII whitespace recognised by `unicode.IsSpace` / `bytes.TrimSpace`
(space, tab, newline, vertical tab, form feed, carriage return).
Go additionally treats U+0085 and U+00A0 as space; the protocol never
produces them and the claims do not quantify over them. -/
def isSpaceChar (c : Char) : Bool :=
  let n := c.toNat
  n = 32 || n = 9 || n = 10 || n = 11 || n = 12 || n = 13

/-- Decimal digit. -/
def isDigitChar (c : Char) : Bool :=
  let n := c.toNat
  48 ≤ n && n ≤ 57

/-- Characters that can occur in a canonical (zone-free) textual IP
address: decimal digits, lowercase hex letters, ':' and '.'. -/
def isIPv6Char (c : Char) : Bool :=
  let n := c.toNat
  (48 ≤ n && n ≤ 57) || (97 ≤ n && n ≤ 102) || n = 58 || n = 46

/-! ### Models of Go `strings` / `bytes` helpers -/

/-- `bytes.TrimSpace` / `strings.TrimSpace`: strip leading and trailing
whitespace. -/
def trimSpace (s : Str) : Str :=
  ((s.dropWhile isSpaceChar).reverse.dropWhile isSpaceChar).reverse

/-- `strings.Trim s cutset`: strip leading and trailing characters that
are members of `cutset`. -/
def trimChars (cutset : Str) (s : Str) : Str :=
  ((s.dropWhile (fun c => c ∈ cutset)).reverse.dropWhile
      (fun c => c ∈ cutset)).reverse

/-- Index of the last occurrence of `c`, if any
(`strings.LastIndexByte`, with Go's -1 rendered as `none`). -/
def lastIndexOf (c : Char) : Str → Option Nat
  | [] => none
  | x :: xs =>
    match lastIndexOf c xs with
    | some i => some (i + 1)
    | none => if x = c then some 0 else none

/-- Does `s` begin with the pattern `pat` (`strings.HasPrefix`)? -/
def strStartsWith (pat s : Str) : Bool :=
  match pat, s with
  | [], _ => true
  | _ :: _, [] => false
  | p :: ps, c :: cs => p = c && strStartsWith ps cs

/-- Does `s` contain `pat` as a contiguous substring
(`strings.Index s pat >= 0`)? -/
def containsSub (s pat : Str) : Bool :=
  match s with
  | [] => pat = []
  | _ :: rest => strStartsWith pat s || containsSub rest pat

/-- Index of the first occurrence of the substring `pat` in `s`
(`strings.Index`). -/
def indexOfSub (pat s : Str) : Option Nat :=
  match s with
  | [] => if pat = [] then some 0 else none
  | _ :: rest =>
    if strStartsWith pat s then some 0
    else (indexOfSub pat rest).map (· + 1)

/-- `strings.Fields`: the whitespace-separated tokens of `s`, with no
empty tokens. -/
def fieldsSplit (s : Str) : List Str :=
  (s.splitOnP isSpaceChar).filter (· ≠ [])

/-! ### Model of `net.ParseIP`

`net.ParseIP` (via `netip.ParseAddr`) dispatches on the first of
'.', ':' or '%' in the string: '.' starts an IPv4 parse, ':' an IPv6
parse, a leading '%' is an error.  A zone suffix ('%' anywhere) is
rejected by `net.ParseIP` even where `netip` would accept it.  The
returned address is always 16 bytes; IPv4 addresses come back in
IPv4-in-IPv6 mapped form. -/

/-- An IP address: its 16 bytes, as produced by `net.ParseIP`. -/
abbrev IPAddr := List Nat

/-- One decimal field of a dotted quad, per `netip.parseIPv4`:
nonempty, all digits, no leading zero, value at most 255. -/
def v4field (f : Str) : Option Nat :=
  if f = [] then none
  else if ¬ f.all isDigitChar then none
  else if f.length > 1 ∧ f.head? = some '0' then none
  else
    let v := f.foldl (fun acc c => acc * 10 + (c.toNat - 48)) 0
    if v > 255 then none else some v

/-- `netip.parseIPv4`: exactly four '.'-separated fields. Returns the
four bytes. -/
def parseIPv4fields (s : Str) : Option (List Nat) :=
  match s.splitOn '.' with
  | [a, b, c, d] =>
    (v4field a).bind fun x =>
    (v4field b).bind fun y =>
    (v4field c).bind fun z =>
    (v4field d).map fun w => [x, y, z, w]
  | _ => none

/-- The 16-byte IPv4-in-IPv6 mapped form `::ffff:a.b.c.d`. -/
def v4mapped (fs : List Nat) : IPAddr :=
  [0, 0, 0, 0, 0, 0, 0, 0, 0, 0, 255, 255] ++ fs

/-- Value of one hex digit. -/
def hexDigit (c : Char) : Option Nat :=
  let n := c.toNat
  if 48 ≤ n ∧ n ≤ 57 then some (n - 48)
  else if 97 ≤ n ∧ n ≤ 102 then some (n - 97 + 10)
  else if 65 ≤ n ∧ n ≤ 70 then some (n - 65 + 10)
  else none

/-- Is `c` a hex digit? -/
def isHexChar (c : Char) : Bool := (hexDigit c).isSome

/-- Value of a group of at most four hex digits. -/
def chunkVal (chunk : Str) : Nat :=
  chunk.foldl (fun acc c => acc * 16 + (hexDigit c).getD 0) 0

/-- Final fix-up of `netip.parseIPv6`: expand the `::` ellipsis (recorded
as a byte offset) to the missing zero bytes; reject an address that is
short without an ellipsis, or full with one. -/
def p6fix (acc : List Nat) (ell : Option Nat) : Option IPAddr :=
  if acc.length < 16 then
    match ell with
    | none => none
    | some e => some (acc.take e ++ List.replicate (16 - acc.length) 0 ++ acc.drop e)
  else
    match ell with
    | none => if acc.length = 16 then some acc else none
    | some _ => none

/-- Main loop of `netip.parseIPv6`: peel one hex group (or a trailing
embedded IPv4 quad) per step.  `acc` holds the bytes parsed so far and
`ell` the byte position of the `::` ellipsis, if seen.  Fuel decreases on
every recursive call; `s.length + 1` is always sufficient. -/
def p6loop : Nat → Str → List Nat → Option Nat → Option IPAddr
  | 0, _, _, _ => none
  | fuel + 1, s, acc, ell =>
    if acc.length ≥ 16 then (if s = [] then p6fix acc ell else none)
    else
      let chunk := s.takeWhile isHexChar
      let rest := s.dropWhile isHexChar
      if chunk.length = 0 then none
      else if chunk.length > 4 then none
      else if strStartsWith ['.'] rest then
        if ell = none ∧ acc.length ≠ 12 then none
        else if acc.length + 4 > 16 then none
        else
          match parseIPv4fields s with
          | none => none
          | some fs => p6fix (acc ++ fs) ell
      else
        let v := chunkVal chunk
        let acc2 := acc ++ [v / 256, v % 256]
        match rest with
        | [] => p6fix acc2 ell
        | [':'] => none
        | ':' :: ':' :: rest2 =>
          if ell.isSome then none
          else if rest2 = [] then p6fix acc2 (some acc2.length)
          else p6loop fuel rest2 acc2 (some acc2.length)
        | ':' :: rest2 => p6loop fuel rest2 acc2 ell
        | _ => none

/-- `netip.parseIPv6`, specialised to `net.ParseIP`'s use: any zone
suffix ('%') makes the overall parse fail, since `net.ParseIP` rejects
addresses carrying a zone and `netip` rejects an empty zone. -/
def parseIPv6 (s : Str) : Option IPAddr :=
  if '%' ∈ s then none
  else
    match s with
    | ':' :: ':' :: rest =>
      if rest = [] then some (List.replicate 16 0)
      else p6loop (rest.length + 1) rest [] (some 0)
    | _ => p6loop (s.length + 1) s [] none

/-- First of '.', ':' or '%' occurring in `s` (the dispatch scan of
`netip.ParseAddr`). -/
def firstSpecial : Str → Option Char
  | [] => none
  | c :: rest => if c = '.' ∨ c = ':' ∨ c = '%' then some c else firstSpecial rest

/-- Model of `net.ParseIP`. -/
def netParseIP (s : Str) : Option IPAddr :=
  match firstSpecial s with
  | some '.' => (parseIPv4fields s).map v4mapped
  | some ':' => parseIPv6 s
  | _ => none

/-- `IP.To4`: the 4 IPv4 bytes when the 16-byte address is
IPv4-in-IPv6 mapped. -/
def ipTo4 (ip : IPAddr) : Option (List Nat) :=
  if ip.length = 16 ∧ ip.take 12 = [0, 0, 0, 0, 0, 0, 0, 0, 0, 0, 255, 255]
  then some (ip.drop 12) else none

/-- `IP.IsLinkLocalUnicast`: 169.254/16 for IPv4, fe80::/10 for IPv6. -/
def isLinkLocalUnicast (ip : IPAddr) : Bool :=
  match ipTo4 ip with
  | some p4 => p4.getD 0 0 = 169 && p4.getD 1 0 = 254
  | none =>
    ip.length = 16 && ip.getD 0 0 = 0xfe && (ip.getD 1 0) / 64 % 4 = 2

/-- Lowercase hex rendering of one 16-bit group, no leading zeros. -/
def hexGroup (n : Nat) : Str := Nat.toDigits 16 n

/-- Decimal rendering of one byte. -/
def decByte (n : Nat) : Str := Nat.toDigits 10 n

/-- The 8 16-bit groups of a 16-byte address. -/
def toGroups : List Nat → List Nat
  | a :: b :: rest => (a * 256 + b) :: toGroups rest
  | _ => []

/-- All maximal runs of zero groups, as (start index, length) pairs;
`cur` carries the run currently being extended. -/
def zeroRunsAux : List Nat → Nat → Option (Nat × Nat) → List (Nat × Nat)
  | [], _, cur => match cur with | some r => [r] | none => []
  | g :: rest, idx, cur =>
    if g = 0 then
      match cur with
      | some (s, l) => zeroRunsAux rest (idx + 1) (some (s, l + 1))
      | none => zeroRunsAux rest (idx + 1) (some (idx, 1))
    else
      match cur with
      | some r => r :: zeroRunsAux rest (idx + 1) none
      | none => zeroRunsAux rest (idx + 1) none

/-- All maximal runs of zero groups, as (start index, length) pairs. -/
def zeroRuns (gs : List Nat) : List (Nat × Nat) :=
  zeroRunsAux gs 0 none

/-- Leftmost longest run of at least two zero groups, if any (the `::`
placement rule of `IP.String`, RFC 5952). -/
def bestZeroRun (gs : List Nat) : Option (Nat × Nat) :=
  let best := (zeroRuns gs).foldl
    (fun acc r => match acc with
      | none => some r
      | some b => if r.2 > b.2 then some r else acc) none
  match best with
  | some b => if b.2 ≥ 2 then some b else none
  | none => none

/-- Join groups with ':' separators. -/
def joinColon (gs : List Nat) : Str :=
  match gs with
  | [] => []
  | [g] => hexGroup g
  | g :: rest => hexGroup g ++ ':' :: joinColon rest

/-- Model of `net.IP.String`: dotted quad for a mapped IPv4 address,
otherwise canonical RFC 5952 IPv6 text with `::` replacing the leftmost
longest run of two or more zero groups. -/
def ipString (ip : IPAddr) : Str :=
  match ipTo4 ip with
  | some [a, b, c, d] =>
    decByte a ++ '.' :: decByte b ++ '.' :: decByte c ++ '.' :: decByte d
  | some _ => ['?']
  | none =>
    let gs := toGroups ip
    match bestZeroRun gs with
    | none => joinColon gs
    | some (s, l) => joinColon (gs.take s) ++ ':' :: ':' :: joinColon (gs.drop (s + l))

/-! ### Model of `net/url` (restricted)

`url.Parse` is modelled for the URL shapes the discovery protocol
produces: `scheme://host/path` and scheme-less relative references,
without userinfo, query, fragment, opaque part, or percent-escapes other
than the `%25` zone delimiter in a bracketed host.  Inputs outside this
fragment make the model parser fail; every claim quantifies only over
URLs inside it. -/

/-- A parsed URL: scheme, decoded host (with port), path. -/
structure GoURL where
  scheme : Str
  host : Str
  path : Str
  deriving DecidableEq

/-- Scheme body characters: ALPHA / DIGIT / "+" / "-" / ".". -/
def schemeBodyChar (c : Char) : Bool :=
  let n := c.toNat
  (97 ≤ n && n ≤ 122) || (65 ≤ n && n ≤ 90) || (48 ≤ n && n ≤ 57) ||
  n = 43 || n = 45 || n = 46

/-- ASCII letter. -/
def isAlphaChar (c : Char) : Bool :=
  let n := c.toNat
  (97 ≤ n && n ≤ 122) || (65 ≤ n && n ≤ 90)

/-- Lowercase one ASCII letter (Go lowercases the scheme). -/
def asciiLower (c : Char) : Char :=
  let n := c.toNat
  if 65 ≤ n ∧ n ≤ 90 then Char.ofNat (n + 32) else c

/-- Model of `net/url.getScheme`: scan over scheme characters; a ':'
terminating them yields a scheme, any other terminator means the
reference has no scheme; a leading ':' is a parse error (`none`). -/
def getScheme (s : Str) : Option (Str × Str) :=
  match s with
  | [] => some ([], [])
  | c :: _ =>
    if c = ':' then none
    else if ¬ isAlphaChar c then some ([], s)
    else
      match s.findIdx? (fun ch => ¬ schemeBodyChar ch) with
      | none => some ([], s)
      | some i =>
        if s.getD i ' ' = ':' then some ((s.take i).map asciiLower, s.drop (i + 1))
        else some ([], s)

/-- `net/url.validOptionalPort`: empty, or ':' followed by digits. -/
def validOptionalPort (p : Str) : Bool :=
  match p with
  | [] => true
  | ':' :: rest => rest.all isDigitChar
  | _ => false

/-- Percent-decoding of a host component, restricted to the `%25` escape
(Go additionally admits escapes of non-ASCII bytes, which the protocol
never produces; any other '%' use is a parse error in Go too). -/
def unescapeHostModel : Str → Option Str
  | [] => some []
  | '%' :: '2' :: '5' :: rest => (unescapeHostModel rest).map ('%' :: ·)
  | '%' :: _ => none
  | c :: rest => (unescapeHostModel rest).map (c :: ·)

/-- Model of `net/url.parseHost`: bracketed hosts are split at the last
']', the optional port is validated, and a `%25` inside the brackets
introduces a zone whose escape is decoded; non-bracketed hosts with a
':' get their port validated.  The returned host is the decoded text. -/
def parseHost (host : Str) : Option Str :=
  if strStartsWith ['['] host then
    match lastIndexOf ']' host with
    | none => none
    | some i =>
      if ¬ validOptionalPort (host.drop (i + 1)) then none
      else
        match indexOfSub ['%', '2', '5'] (host.take i) with
        | some z =>
          (unescapeHostModel ((host.take i).take z)).bind fun h1 =>
          (unescapeHostModel ((host.take i).drop z)).bind fun h2 =>
          (unescapeHostModel (host.drop i)).map fun h3 => h1 ++ h2 ++ h3
        | none => unescapeHostModel host
  else
    match lastIndexOf ':' host with
    | some i =>
      if ¬ validOptionalPort (host.drop i) then none else unescapeHostModel host
    | none => unescapeHostModel host

/-- Model of `net/url.Parse` on the restricted fragment: reject query,
fragment, userinfo and escaped paths; parse the scheme; an authority
("//") is split into host and path; a scheme-less reference without an
authority is a relative URL (empty scheme and host). -/
def urlParse (s : Str) : Option GoURL :=
  if '#' ∈ s ∨ '?' ∈ s then none
  else
    match getScheme s with
    | none => none
    | some (sch, rest) =>
      if rest.take 2 = ['/', '/'] then
        let auth := (rest.drop 2).takeWhile (· ≠ '/')
        let path := (rest.drop 2).dropWhile (· ≠ '/')
        if '@' ∈ auth ∨ '%' ∈ path then none
        else
          match parseHost auth with
          | none => none
          | some h => some ⟨sch, h, path⟩
      else if sch = [] ∧ '%' ∉ s then some ⟨[], [], s⟩
      else none

/-- `net/url.shouldEscape` in host mode: ASCII alphanumerics, the host
sub-delims and IPv6 literal characters, and the unreserved marks pass
through; everything else (notably '%') is escaped. -/
def shouldEscapeHost (c : Char) : Bool :=
  let n := c.toNat
  !((97 ≤ n && n ≤ 122) || (65 ≤ n && n ≤ 90) || (48 ≤ n && n ≤ 57) ||
     n = 33 || n = 36 || n = 38 || n = 39 || n = 40 || n = 41 || n = 42 ||
     n = 43 || n = 44 || n = 59 || n = 61 ||
     n = 58 || n = 91 || n = 93 || n = 60 || n = 62 || n = 34 ||
     n = 45 || n = 95 || n = 46 || n = 126)

/-- `net/url.shouldEscape` in path mode: only '?' of the RFC 3986
reserved set is escaped, besides the characters escaped in every mode. -/
def shouldEscapePath (c : Char) : Bool :=
  let n := c.toNat
  if (97 ≤ n && n ≤ 122) || (65 ≤ n && n ≤ 90) || (48 ≤ n && n ≤ 57) ||
     n = 45 || n = 95 || n = 46 || n = 126 then false
  else if n = 36 || n = 38 || n = 43 || n = 44 || n = 47 || n = 58 ||
          n = 59 || n = 61 || n = 63 || n = 64 then n = 63
  else true

/-- Uppercase hex digit (percent-escapes use uppercase). -/
def hexUpper (n : Nat) : Char :=
  if n < 10 then Char.ofNat (48 + n) else Char.ofNat (65 + n - 10)

/-- One percent-escaped ASCII byte. -/
def pctEncode (c : Char) : Str :=
  ['%', hexUpper (c.toNat / 16), hexUpper (c.toNat % 16)]

/-- `net/url.escape` in host mode, for ASCII text. -/
def escapeHost (s : Str) : Str :=
  s.flatMap fun c => if shouldEscapeHost c then pctEncode c else [c]

/-- `net/url.escape` in path mode, for ASCII text. -/
def escapePath (s : Str) : Str :=
  s.flatMap fun c => if shouldEscapePath c then pctEncode c else [c]

/-- Model of `URL.String` on the restricted fragment:
`scheme://escaped-host escaped-path` (the code only renders URLs whose
host is nonempty). -/
def urlString (u : GoURL) : Str :=
  u.scheme ++ ':' :: '/' :: '/' :: escapeHost u.host ++ escapePath u.path

/-! ### The repository code under test: `wsdd.go` -/

/-- The host/port split of `fixIpv6URLZone`: cut at the last ':' of the
parsed host; without a ':' the port is empty. -/
def splitHostPort (h : Str) : Str × Str :=
  match lastIndexOf ':' h with
  | none => (h, [])
  | some i => (h.take i, h.drop (i + 1))

/-- Does the split host begin with '[' (`strings.HasPrefix(host, "[")`)? -/
def startsWithBr (s : Str) : Bool :=
  match s with
  | '[' :: _ => true
  | _ => false

/-- Direct translation of `fixIpv6URLZone` (wsdd.go): parse the URL,
require it to be absolute, split host and port at the last ':', pass
non-bracketed hosts through unchanged, parse the bracketed literal with
`net.ParseIP`, and for a link-local unicast address rebuild the host as
`[ip%zone]:port` (canonical IP text) and re-render the URL, which
percent-escapes the zone delimiter. -/
def fixIpv6URLZone (rawurl zone : Str) : Except String Str :=
  match urlParse rawurl with
  | none => .error "URL parse error"
  | some parsed =>
    if parsed.scheme = [] then .error "Invalid URL: not absolute"
    else
      let hp := splitHostPort parsed.host
      if ¬ startsWithBr hp.1 then .ok rawurl
      else
        match netParseIP (trimChars ['[', ']'] hp.1) with
        | none => .error "Invalid URL: bad IPv6 address"
        | some ip =>
          if isLinkLocalUnicast ip then
            .ok (urlString { parsed with
              host := '[' :: ipString ip ++ '%' :: zone ++ ']' :: ':' :: hp.2 })
          else .ok rawurl

/-! ### Endpoint and XML elements -/

/-- `Endpoint` (endpoint.go): protocol name, device name, endpoint URL.
Equality is structural, as for the Go struct used as a map key. -/
structure Endpoint where
  proto : Str
  name : Str
  url : Str
  deriving DecidableEq

/-- An XML element as produced by `XMLDecode` (xml.go) and consumed by
the handlers: full slash-separated path from the root, trimmed text, and
the flattened list of descendants (Go's `Children`, which records every
descendant, not only direct children). -/
inductive XMLEl where
  | mk (path : Str) (text : Str) (children : List XMLEl)

/-- Path of an element. -/
def XMLEl.path : XMLEl → Str
  | .mk p _ _ => p

/-- Text of an element. -/
def XMLEl.text : XMLEl → Str
  | .mk _ t _ => t

/-- Descendants of an element. -/
def XMLEl.children : XMLEl → List XMLEl
  | .mk _ _ c => c

/-! ### `getMetadata` response decoding (wsdd.go)

The HTTP POST, body read and XML tokenization are transport; the model
starts from the decoded element list, exactly as the Go code does after
its `XMLDecode` call, and covers everything from the element scan to the
returned endpoint list. -/

/-- Paths matched by `parseHosted` and `getMetadata`. -/
def hostedTypesPath : Str :=
  "/s:Envelope/s:Body/mex:Metadata/mex:MetadataSection/devprof:Relationship/devprof:Hosted/devprof:Types".toList

/-- Path of a hosted endpoint address. -/
def hostedAddrPath : Str :=
  "/s:Envelope/s:Body/mex:Metadata/mex:MetadataSection/devprof:Relationship/devprof:Hosted/a:EndpointReference/a:Address".toList

/-- Path of the SOAP header action. -/
def headerActionPath : Str := "/s:Envelope/s:Header/a:Action".toList

/-- Path of the manufacturer name. -/
def manufacturerPath : Str :=
  "/s:Envelope/s:Body/mex:Metadata/mex:MetadataSection/devprof:ThisModel/devprof:Manufacturer".toList

/-- Path of the model name. -/
def modelNamePath : Str :=
  "/s:Envelope/s:Body/mex:Metadata/mex:MetadataSection/devprof:ThisModel/devprof:ModelName".toList

/-- Path of a Hosted relationship block. -/
def hostedPath : Str :=
  "/s:Envelope/s:Body/mex:Metadata/mex:MetadataSection/devprof:Relationship/devprof:Hosted".toList

/-- Direct translation of `parseHosted` (wsdd.go): scan the descendant
list of a `Hosted` block for its `Types` text (last write wins) and its
endpoint reference addresses (appended); return the addresses only when
the types contain the `ScannerServiceType` marker. -/
def parseHosted (elements : List XMLEl) : List Str :=
  let r := elements.foldl
    (fun (acc : Str × List Str) elem =>
      if elem.path = hostedTypesPath then (elem.text, acc.2)
      else if elem.path = hostedAddrPath then (acc.1, acc.2 ++ [elem.text])
      else acc) ([], [])
  if containsSub r.1 "ScannerServiceType".toList then r.2 else []

/-- The fields `getMetadata` extracts from a decoded GetResponse. -/
structure MetaFields where
  action : Str
  manufacturer : Str
  model : Str
  urls : List Str
  deriving DecidableEq

/-- The element scan of `getMetadata` (wsdd.go): action, manufacturer
and model take the last matching element's text; hosted scanner URLs are
accumulated through `parseHosted`. -/
def extractMeta (elements : List XMLEl) : MetaFields :=
  elements.foldl
    (fun mf elem =>
      if elem.path = headerActionPath then { mf with action := elem.text }
      else if elem.path = manufacturerPath then { mf with manufacturer := elem.text }
      else if elem.path = modelNamePath then { mf with model := elem.text }
      else if elem.path = hostedPath then
        { mf with urls := mf.urls ++ parseHosted elem.children }
      else mf)
    ⟨[], [], [], []⟩

/-- The two accepted GetResponse action URIs. -/
def getResponseActionHttp : Str :=
  "http://schemas.xmlsoap.org/ws/2004/09/transfer/GetResponse".toList

/-- The https variant of the GetResponse action URI. -/
def getResponseActionHttps : Str :=
  "https://schemas.xmlsoap.org/ws/2004/09/transfer/GetResponse".toList

/-- Decoding stage of `getMetadata` (wsdd.go): reject an unknown action,
a response with blank manufacturer and model, or one without hosted
scanner URLs; otherwise emit one `wsd` endpoint per URL, named
`manufacturer + " " + model`, or `model` alone when the manufacturer is
blank. -/
def metaCore (mf : MetaFields) : List Endpoint :=
  if mf.action ≠ getResponseActionHttp ∧ mf.action ≠ getResponseActionHttps then []
  else if mf.model = [] ∧ mf.manufacturer = [] then []
  else if mf.urls = [] then []
  else
    let nm := if mf.manufacturer ≠ [] then mf.manufacturer ++ ' ' :: mf.model
              else mf.model
    mf.urls.map fun url => ⟨"wsd".toList, nm, url⟩

/-- `getMetadata`'s decoding stage proper: extract the fields, then
apply the checks and build the endpoints. -/
def getMetadataDecode (elements : List XMLEl) : List Endpoint :=
  metaCore (extractMeta elements)

/-! ### `handleUDPMessage` (wsdd.go) -/

/-- Path of a ProbeMatch type list. -/
def pmTypesPath : Str :=
  "/s:Envelope/s:Body/d:ProbeMatches/d:ProbeMatch/d:Types".toList

/-- Path of a ProbeMatch transport address list. -/
def pmXAddrsPath : Str :=
  "/s:Envelope/s:Body/d:ProbeMatches/d:ProbeMatch/d:XAddrs".toList

/-- Path of a ProbeMatch endpoint reference address. -/
def pmAddressPath : Str :=
  "/s:Envelope/s:Body/d:ProbeMatches/d:ProbeMatch/a:EndpointReference/a:Address".toList

/-- The two accepted ProbeMatches action URIs. -/
def probeMatchesActionHttp : Str :=
  "http://schemas.xmlsoap.org/ws/2005/04/discovery/ProbeMatches".toList

/-- The https variant of the ProbeMatches action URI. -/
def probeMatchesActionHttps : Str :=
  "https://schemas.xmlsoap.org/ws/2005/04/discovery/ProbeMatches".toList

/-- Fields `handleUDPMessage` extracts from a decoded datagram. -/
structure PMFields where
  action : Str
  address : Str
  types : Str
  xaddrs : List Str
  deriving DecidableEq

/-- The element scan of `handleUDPMessage` (wsdd.go): action, types and
address take the last matching element's text; each `XAddrs` text is
split into whitespace-separated tokens, each token is zone-repaired with
`fixIpv6URLZone`, and tokens whose repair fails are dropped. -/
def extractPM (elements : List XMLEl) (zone : Str) : PMFields :=
  elements.foldl
    (fun pm elem =>
      if elem.path = headerActionPath then { pm with action := elem.text }
      else if elem.path = pmTypesPath then { pm with types := elem.text }
      else if elem.path = pmXAddrsPath then
        { pm with xaddrs := pm.xaddrs ++ ((fieldsSplit elem.text).filterMap (fun url => (fixIpv6URLZone url zone).toOption)) }
      else if elem.path = pmAddressPath then { pm with address := elem.text }
      else pm)
    ⟨[], [], [], []⟩

/-- Direct translation of `alreadyKnown` (wsdd.go): report whether the
address is in the known-address set, and, when `save` is set and it was
absent, the set with it added.  Go's set is a mutex-guarded map; calls
are serialized, so a value-passing model is adequate. -/
def alreadyKnown (found : List Str) (address : Str) (save : Bool) :
    Bool × List Str :=
  if address ∈ found then (true, found)
  else if save then (false, address :: found)
  else (false, found)

/-- Insertion into the Go `map[Endpoint]struct{}` dedup set, modelled as
a list without duplicates in insertion order (Go map iteration order is
unspecified; no claim depends on the order). -/
def dedupInsert (l : List Endpoint) (e : Endpoint) : List Endpoint :=
  if e ∈ l then l else l ++ [e]

/-- Result of one `handleUDPMessage` call: the updated known-address
set, the `getMetadata` calls performed (device address and transport
address of each HTTP fetch, in order), and the endpoints sent to the
output channel. -/
structure HandleResult where
  found : List Str
  fetches : List (Str × Str)
  emitted : List Endpoint
  deriving DecidableEq

/-- Direct translation of `handleUDPMessage` (wsdd.go) from its element
scan onward, with `getMetadata` abstracted as the oracle `fetch`
(its value is whatever the device's HTTP reply decodes to).  In order:
the non-destructive known-address check, the action check, the
non-empty-XAddrs check, the scanner-type check, the non-empty-address
check; then one fetch per transport address, dedup of the results,
destructive marking of the address as known, and emission of each
endpoint after a second zone repair of its URL (endpoints whose repair
fails are dropped). -/
def handleCore (found : List Str) (pm : PMFields)
    (zone : Str) (fetch : Str → Str → List Endpoint) : HandleResult :=
  if (alreadyKnown found pm.address false).1 then ⟨found, [], []⟩
  else if pm.action ≠ probeMatchesActionHttp ∧
          pm.action ≠ probeMatchesActionHttps then ⟨found, [], []⟩
  else if pm.xaddrs = [] then ⟨found, [], []⟩
  else if ¬ containsSub pm.types "ScanDeviceType".toList then ⟨found, [], []⟩
  else if pm.address = [] then ⟨found, [], []⟩
  else
    let eps := (pm.xaddrs.flatMap fun x => fetch pm.address x).foldl dedupInsert []
    let found2 := (alreadyKnown found pm.address true).2
    let emitted := eps.filterMap fun ep =>
      match fixIpv6URLZone ep.url zone with
      | .ok u => some { ep with url := u }
      | .error _ => none
    ⟨found2, pm.xaddrs.map fun x => (pm.address, x), emitted⟩

/-- `handleUDPMessage` proper: extract the fields, then run the
validation-and-fetch stage. -/
def handleUDPMessage (found : List Str) (elements : List XMLEl)
    (zone : Str) (fetch : Str → Str → List Endpoint) : HandleResult :=
  handleCore found (extractPM elements zone) zone fetch

/-! ### `XMLDecode` (xml.go)

The byte-level tokenizer is Go's `encoding/xml`; the model starts from
its token stream.  Elements are kept in document order with a parent
index in place of Go's parent pointer; the `runs` field is ghost
instrumentation recording every character-data run delivered while the
element was current, so that theorems can speak about "the last run". -/

/-- One `encoding/xml` token: start element (namespace URL and local
name), end element, or character data. -/
inductive XMLToken where
  | startEl (space loc : Str)
  | endEl
  | charData (s : Str)

/-- An element under construction: path, current text, parent index,
and (ghost) the character-data runs delivered to it. -/
structure DecElem where
  path : Str
  text : Str
  par : Option Nat
  runs : List Str
  deriving DecidableEq

/-- Decoder state: elements in document order, index of the current
element, and the path buffer. -/
structure DecState where
  elems : List DecElem
  cur : Option Nat
  pathBuf : Str
  deriving DecidableEq

/-- One step of the `XMLDecode` loop (xml.go).  A start tag resolves its
namespace through `ns` (unmapped namespaces become "-"), extends the
path buffer, and appends a fresh element whose parent is the current
one.  An end tag pops to the parent and truncates the path buffer to the
parent's path length (to empty at the root); Go dereferences a nil
pointer on an end tag without a current element, which `encoding/xml`
never produces — the model returns `none` there.  Character data sets
the current element's text to the run trimmed of surrounding whitespace,
unconditionally. -/
def decodeStep (ns : List (Str × Str)) (st : DecState) (t : XMLToken) :
    Option DecState :=
  match t with
  | .startEl space loc =>
    let pfx := ((ns.find? (fun p => p.1 = space)).map (·.2)).getD ['-']
    let path2 := st.pathBuf ++ '/' :: pfx ++ ':' :: loc
    some ⟨st.elems ++ [⟨path2, [], st.cur, []⟩], some st.elems.length, path2⟩
  | .endEl =>
    match st.cur with
    | none => none
    | some i =>
      match st.elems.get? i with
      | none => none
      | some e =>
        match e.par with
        | some p =>
          match st.elems.get? p with
          | none => none
          | some pe => some ⟨st.elems, some p, st.pathBuf.take pe.path.length⟩
        | none => some ⟨st.elems, none, []⟩
  | .charData s =>
    match st.cur with
    | none => some st
    | some i =>
      match st.elems.get? i with
      | none => none
      | some e =>
        some ⟨st.elems.set i { e with text := trimSpace s, runs := e.runs ++ [s] },
              st.cur, st.pathBuf⟩

/-- `XMLDecode` (xml.go) over a token stream: fold the step function
from the empty state. -/
def XMLDecode (ns : List (Str × Str)) (ts : List XMLToken) : Option DecState :=
  ts.foldlM (decodeStep ns) ⟨[], none, []⟩

/-! ### Concrete protocol samples used by witnesses and counterexamples -/

/-- Sample interface zone. -/
def sampleZone : Str := "eth0".toList

/-- Sample device address. -/
def sampleAddress : Str := "urn:uuid:abc".toList

/-- A well-formed ProbeMatches element list for a scanner device. -/
def samplePMElems : List XMLEl := [
  .mk headerActionPath probeMatchesActionHttp [],
  .mk pmTypesPath "scan:ScanDeviceType".toList [],
  .mk pmXAddrsPath "http://192.168.1.102:5358/WSDScanner".toList [],
  .mk pmAddressPath sampleAddress []]

/-- A ProbeMatches element list whose type list lacks the scanner
marker. -/
def samplePrinterElems : List XMLEl := [
  .mk headerActionPath probeMatchesActionHttp [],
  .mk pmTypesPath "print:PrintDeviceType".toList [],
  .mk pmXAddrsPath "http://192.168.1.102:5358/WSDPrinter".toList [],
  .mk pmAddressPath sampleAddress []]

/-- An element list with an unrecognised action. -/
def sampleBadActionElems : List XMLEl := [
  .mk headerActionPath "urn:something-else".toList [],
  .mk pmTypesPath "scan:ScanDeviceType".toList [],
  .mk pmXAddrsPath "http://192.168.1.102:5358/WSDScanner".toList [],
  .mk pmAddressPath sampleAddress []]

/-- A fetch oracle whose every HTTP exchange yields zero endpoints. -/
def emptyFetch : Str → Str → List Endpoint := fun _ _ => []

/-- A fetch oracle returning one fixed endpoint. -/
def oneFetch : Str → Str → List Endpoint := fun _ _ =>
  [⟨"wsd".toList, "Kyocera ECOSYS M2040dn".toList,
    "http://192.168.1.102:5358/WSDScanner".toList⟩]

/-- The Hosted block of the Kyocera GetResponse example, with its
flattened descendant list. -/
def kyoceraHostedEl : XMLEl :=
  .mk hostedPath [] [
    .mk "/s:Envelope/s:Body/mex:Metadata/mex:MetadataSection/devprof:Relationship/devprof:Hosted/a:EndpointReference".toList [] [],
    .mk hostedAddrPath "http://192.168.1.102:5358/WSDScanner".toList [],
    .mk hostedTypesPath "scan:ScannerServiceType".toList []]

/-- Decoded GetResponse for the Kyocera ECOSYS M2040dn example. -/
def kyoceraElems : List XMLEl := [
  .mk headerActionPath getResponseActionHttp [],
  .mk manufacturerPath "Kyocera".toList [],
  .mk modelNamePath "ECOSYS M2040dn".toList [],
  kyoceraHostedEl]

/-- Kyocera GetResponse with a blank manufacturer and blank model. -/
def kyoceraBlankElems : List XMLEl := [
  .mk headerActionPath getResponseActionHttp [],
  kyoceraHostedEl]

/-- Token stream: `<a>hi<b/>` (an element with text, then a child). -/
def c2TokensA : List XMLToken :=
  [.startEl "u".toList "a".toList, .charData "hi".toList,
   .startEl "u".toList "b".toList, .endEl]

/-- `c2TokensA` followed by a whitespace-only character-data run
delivered to the outer element (mixed content `<a>hi<b/>  </a>` before
the closing tag). -/
def c2TokensB : List XMLToken := c2TokensA ++ [.charData "  ".toList]

/-- The outer element after decoding `c2TokensB`: its text has been
overwritten by the whitespace-only run. -/
def c2ElemA : DecElem :=
  ⟨"/-:a".toList, [], none, ["hi".toList, "  ".toList]⟩

/-- The inner element after decoding `c2TokensB`. -/
def c2ElemB : DecElem := ⟨"/-:a/-:b".toList, [], some 0, []⟩

/-- The full decoder state after `c2TokensB`. -/
def c2StateB : DecState := ⟨[c2ElemA, c2ElemB], some 0, "/-:a".toList⟩


/-- The 16 bytes of fe80::1. -/
def ipFe80 : IPAddr := [0xfe, 0x80, 0, 0, 0, 0, 0, 0, 0, 0, 0, 0, 0, 0, 0, 1]

/-- The 16 bytes of 2001:db8::1. -/
def ip2001db8 : IPAddr := [0x20, 0x01, 0x0d, 0xb8, 0, 0, 0, 0, 0, 0, 0, 0, 0, 0, 0, 1]

/-- The decoder invariant behind claim C2: an element's text is the
trimmed value of the last character-data run delivered to it. -/
def textRunsInv (e : DecElem) : Prop := e.text = trimSpace (e.runs.getLastD [])

/-! ### Helper lemmas about the handler and metadata stages -/

/-- A known device address short-circuits `handleCore`: state unchanged,
no fetches, no emissions. -/
theorem hc_known (found : List Str) (pm : PMFields) (zone : Str)
    (fetch : Str → Str → List Endpoint) (h : pm.address ∈ found) :
    handleCore found pm zone fetch = ⟨found, [], []⟩ := by
  simp [handleCore, alreadyKnown, h]

/-- An unrecognised action makes `handleCore` discard the message. -/
theorem hc_bad_action (found : List Str) (pm : PMFields) (zone : Str)
    (fetch : Str → Str → List Endpoint)
    (h1 : pm.action ≠ probeMatchesActionHttp)
    (h2 : pm.action ≠ probeMatchesActionHttps) :
    handleCore found pm zone fetch = ⟨found, [], []⟩ := by
  unfold handleCore
  split
  · rfl
  · rw [if_pos ⟨h1, h2⟩]

/-- A type list without the scanner marker makes `handleCore` discard
the message. -/
theorem hc_no_marker (found : List Str) (pm : PMFields) (zone : Str)
    (fetch : Str → Str → List Endpoint)
    (h : containsSub pm.types "ScanDeviceType".toList = false) :
    handleCore found pm zone fetch = ⟨found, [], []⟩ := by
  unfold handleCore
  split
  · rfl
  split
  · rfl
  split
  · rfl
  rw [if_pos]
  simp only [h, Bool.false_eq_true, not_false_eq_true]

/-- `handleCore` never removes an address from the known set. -/
theorem hc_mono (found : List Str) (pm : PMFields) (zone : Str)
    (fetch : Str → Str → List Endpoint) (x : Str) (hx : x ∈ found) :
    x ∈ (handleCore found pm zone fetch).found := by
  unfold handleCore
  split
  · exact hx
  split
  · exact hx
  split
  · exact hx
  split
  · exact hx
  split
  · exact hx
  show x ∈ (alreadyKnown found pm.address true).2
  unfold alreadyKnown
  split
  · exact hx
  split
  · exact List.mem_cons_of_mem _ hx
  · exact hx

/-- A message passing every validation records its device address in
the known set (for any fetch oracle whatsoever). -/
theorem hc_pass (found : List Str) (pm : PMFields) (zone : Str)
    (fetch : Str → Str → List Endpoint)
    (h0 : pm.address ∉ found)
    (h1 : pm.action = probeMatchesActionHttp ∨ pm.action = probeMatchesActionHttps)
    (h2 : pm.xaddrs ≠ [])
    (h3 : containsSub pm.types "ScanDeviceType".toList = true)
    (h4 : pm.address ≠ []) :
    (handleCore found pm zone fetch).found = pm.address :: found := by
  unfold handleCore
  rw [if_neg, if_neg, if_neg h2, if_neg, if_neg h4]
  · show (alreadyKnown found pm.address true).2 = pm.address :: found
    unfold alreadyKnown
    rw [if_neg h0, if_pos rfl]
  · simp only [h3, not_true_eq_false, not_false_eq_true]
  · rcases h1 with h | h <;> simp [h]
  · simp [alreadyKnown, h0]

/-- An unrecognised GetResponse action yields no endpoints. -/
theorem mc_bad_action (mf : MetaFields)
    (h1 : mf.action ≠ getResponseActionHttp)
    (h2 : mf.action ≠ getResponseActionHttps) :
    metaCore mf = [] := by
  unfold metaCore
  rw [if_pos ⟨h1, h2⟩]

/-- A blank manufacturer together with a blank model yields no
endpoints. -/
theorem mc_blank (mf : MetaFields) (hm : mf.model = [])
    (hman : mf.manufacturer = []) : metaCore mf = [] := by
  unfold metaCore
  split
  · rfl
  · rw [if_pos ⟨hm, hman⟩]

/-- No hosted scanner URL yields no endpoints. -/
theorem mc_no_urls (mf : MetaFields) (h : mf.urls = []) : metaCore mf = [] := by
  simp [metaCore, h]

/-- A GetResponse passing all checks yields one `wsd` endpoint per
hosted URL, with the name built from manufacturer and model. -/
theorem mc_success (mf : MetaFields)
    (h1 : mf.action = getResponseActionHttp ∨ mf.action = getResponseActionHttps)
    (h2 : ¬ (mf.model = [] ∧ mf.manufacturer = []))
    (h3 : mf.urls ≠ []) :
    metaCore mf = mf.urls.map (fun url =>
      ⟨"wsd".toList,
       if mf.manufacturer ≠ [] then mf.manufacturer ++ ' ' :: mf.model
       else mf.model, url⟩) := by
  unfold metaCore
  rw [if_neg, if_neg h2, if_neg h3]
  rcases h1 with h | h <;> simp [h]

/-! ### Claims C3, C4, C5, C6, C8, C10 -/

/-- C3.  For every datagram whose device address is already present in
the known-address set, `handleUDPMessage` performs no metadata fetch,
emits no endpoint and leaves the set unchanged — for arbitrary element
lists, i.e. before and independently of the action, XAddrs, Types and
address validations; and the check is non-destructive: a message failing
a later validation (here: the action check) also leaves the set
unchanged, so its address is not recorded. -/
theorem C3_known_address_short_circuit :
    ∀ (found : List Str) (elements : List XMLEl) (zone : Str)
      (fetch : Str → Str → List Endpoint),
      ((extractPM elements zone).address ∈ found →
        handleUDPMessage found elements zone fetch = ⟨found, [], []⟩) ∧
      ((extractPM elements zone).action ≠ probeMatchesActionHttp →
       (extractPM elements zone).action ≠ probeMatchesActionHttps →
        handleUDPMessage found elements zone fetch = ⟨found, [], []⟩) :=
  fun found _ zone fetch =>
    ⟨fun h => hc_known found _ zone fetch h,
     fun h1 h2 => hc_bad_action found _ zone fetch h1 h2⟩

/-- Witness for C3 at a concrete well-formed ProbeMatches message whose
address is already known. -/
theorem C3_witness :
    (extractPM samplePMElems sampleZone).address ∈ [sampleAddress] ∧
    handleUDPMessage [sampleAddress] samplePMElems sampleZone oneFetch =
      ⟨[sampleAddress], [], []⟩ :=
  ⟨by decide,
   (C3_known_address_short_circuit [sampleAddress] samplePMElems sampleZone
      oneFetch).1 (by decide)⟩

/-- C4.  A datagram whose Types field lacks the substring
"ScanDeviceType" produces no metadata fetch and no emitted endpoint,
whatever the state, zone and fetch oracle. -/
theorem C4_no_marker_no_fetch :
    ∀ (found : List Str) (elements : List XMLEl) (zone : Str)
      (fetch : Str → Str → List Endpoint),
      containsSub (extractPM elements zone).types "ScanDeviceType".toList = false →
      (handleUDPMessage found elements zone fetch).fetches = [] ∧
      (handleUDPMessage found elements zone fetch).emitted = [] := by
  intro found elements zone fetch h
  rw [show handleUDPMessage found elements zone fetch = ⟨found, [], []⟩ from
    hc_no_marker found _ zone fetch h]
  exact ⟨rfl, rfl⟩

/-- Witness for C4 at a concrete printer (non-scanner) ProbeMatches. -/
theorem C4_witness :
    containsSub (extractPM samplePrinterElems sampleZone).types
      "ScanDeviceType".toList = false ∧
    (handleUDPMessage [] samplePrinterElems sampleZone oneFetch).fetches = [] ∧
    (handleUDPMessage [] samplePrinterElems sampleZone oneFetch).emitted = [] :=
  ⟨by decide, C4_no_marker_no_fetch [] samplePrinterElems sampleZone oneFetch (by decide)⟩

/-- C5.  The decoded GetResponse yields no endpoints when its action is
neither GetResponse action URI variant, or when manufacturer and model
are both blank (regardless of hosted URLs), or when no hosted scanner
URL was extracted. -/
theorem C5_metadata_rejections :
    ∀ (elements : List XMLEl),
      ((extractMeta elements).action ≠ getResponseActionHttp →
       (extractMeta elements).action ≠ getResponseActionHttps →
        getMetadataDecode elements = []) ∧
      ((extractMeta elements).manufacturer = [] →
       (extractMeta elements).model = [] →
        getMetadataDecode elements = []) ∧
      ((extractMeta elements).urls = [] → getMetadataDecode elements = []) :=
  fun _ =>
    ⟨fun h1 h2 => mc_bad_action _ h1 h2,
     fun hman hm => mc_blank _ hm hman,
     fun h => mc_no_urls _ h⟩

/-- Witness for C5: a GetResponse with blank manufacturer and model but
a present hosted scanner URL yields zero endpoints. -/
theorem C5_witness :
    ((extractMeta kyoceraBlankElems).manufacturer = [] ∧
     (extractMeta kyoceraBlankElems).model = [] ∧
     (extractMeta kyoceraBlankElems).urls ≠ []) ∧
    getMetadataDecode kyoceraBlankElems = [] :=
  ⟨by decide,
   (C5_metadata_rejections kyoceraBlankElems).2.1 (by decide) (by decide)⟩

/-- C6.  A successful GetResponse (accepted action, manufacturer or
model non-blank, at least one hosted URL) yields exactly one endpoint
per extracted hosted URL, each with protocol "wsd" and name
`manufacturer + " " + model` when the manufacturer is non-blank, or
`model` alone when it is blank. -/
theorem C6_metadata_success :
    ∀ (elements : List XMLEl),
      ((extractMeta elements).action = getResponseActionHttp ∨
       (extractMeta elements).action = getResponseActionHttps) →
      ¬ ((extractMeta elements).model = [] ∧ (extractMeta elements).manufacturer = []) →
      (extractMeta elements).urls ≠ [] →
      getMetadataDecode elements = (extractMeta elements).urls.map (fun url =>
        ⟨"wsd".toList,
         if (extractMeta elements).manufacturer ≠ [] then
           (extractMeta elements).manufacturer ++ ' ' :: (extractMeta elements).model
         else (extractMeta elements).model, url⟩) :=
  fun _ h1 h2 h3 => mc_success _ h1 h2 h3

/-- Witness for C6: the Kyocera ECOSYS M2040dn example produces exactly
one endpoint named "Kyocera ECOSYS M2040dn". -/
theorem C6_witness :
    ((extractMeta kyoceraElems).action = getResponseActionHttp ∧
     (extractMeta kyoceraElems).manufacturer = "Kyocera".toList ∧
     (extractMeta kyoceraElems).model = "ECOSYS M2040dn".toList ∧
     (extractMeta kyoceraElems).urls = ["http://192.168.1.102:5358/WSDScanner".toList]) ∧
    getMetadataDecode kyoceraElems =
      [⟨"wsd".toList, "Kyocera ECOSYS M2040dn".toList,
        "http://192.168.1.102:5358/WSDScanner".toList⟩] :=
  ⟨by decide,
   (C6_metadata_success kyoceraElems (Or.inl (by decide)) (by decide)
      (by decide)).trans (by decide)⟩

/-- C8.  The known-address set only grows: every `alreadyKnown` call
leaves it unchanged or adds the queried address, it never removes a
member, and every `handleUDPMessage` call preserves membership. -/
theorem C8_known_set_grows_only :
    ∀ (found : List Str) (address : Str) (save : Bool),
      ((alreadyKnown found address save).2 = found ∨
       (alreadyKnown found address save).2 = address :: found) ∧
      (∀ x, x ∈ found → x ∈ (alreadyKnown found address save).2) ∧
      (∀ (elements : List XMLEl) (zone : Str)
         (fetch : Str → Str → List Endpoint) (x : Str),
         x ∈ found → x ∈ (handleUDPMessage found elements zone fetch).found) := by
  intro found address save
  refine ⟨?_, ?_, ?_⟩
  · unfold alreadyKnown
    split
    · exact Or.inl rfl
    split
    · exact Or.inr rfl
    · exact Or.inl rfl
  · intro x hx
    unfold alreadyKnown
    split
    · exact hx
    split
    · exact List.mem_cons_of_mem _ hx
    · exact hx
  · intro elements zone fetch x hx
    exact hc_mono found _ zone fetch x hx

/-- Witness for C8 at concrete inputs: a known address survives both a
saving `alreadyKnown` call for a different address and a full handler
call. -/
theorem C8_witness :
    sampleAddress ∈ (alreadyKnown [sampleAddress] "urn:uuid:other".toList true).2 ∧
    sampleAddress ∈
      (handleUDPMessage [sampleAddress] samplePMElems sampleZone oneFetch).found :=
  ⟨(C8_known_set_grows_only [sampleAddress] "urn:uuid:other".toList true).2.1
      sampleAddress (by decide),
   (C8_known_set_grows_only [sampleAddress] "urn:uuid:other".toList true).2.2
      samplePMElems sampleZone oneFetch sampleAddress (by decide)⟩

/-- C10.  A datagram passing all validations records its address in the
known set — for every fetch oracle, hence also when every metadata fetch
returns zero endpoints; any later datagram whose address is in the set
is discarded with no fetch and no emission; and handler calls never
remove an address.  Together: once such a datagram is processed, no
later datagram for the same address triggers a fetch or an emission. -/
theorem C10_pass_marks_known_forever :
    ∀ (found : List Str) (elements : List XMLEl) (zone : Str)
      (fetch : Str → Str → List Endpoint),
      ((extractPM elements zone).address ∉ found →
       ((extractPM elements zone).action = probeMatchesActionHttp ∨
        (extractPM elements zone).action = probeMatchesActionHttps) →
       (extractPM elements zone).xaddrs ≠ [] →
       containsSub (extractPM elements zone).types "ScanDeviceType".toList = true →
       (extractPM elements zone).address ≠ [] →
       (handleUDPMessage found elements zone fetch).found =
         (extractPM elements zone).address :: found) ∧
      (∀ (found2 : List Str) (elements2 : List XMLEl) (zone2 : Str)
         (fetch2 : Str → Str → List Endpoint),
         (extractPM elements2 zone2).address ∈ found2 →
         handleUDPMessage found2 elements2 zone2 fetch2 = ⟨found2, [], []⟩) ∧
      (∀ x, x ∈ found → x ∈ (handleUDPMessage found elements zone fetch).found) :=
  fun found _ zone fetch =>
    ⟨fun h0 h1 h2 h3 h4 => hc_pass found _ zone fetch h0 h1 h2 h3 h4,
     fun found2 _ zone2 fetch2 h => hc_known found2 _ zone2 fetch2 h,
     fun x hx => hc_mono found _ zone fetch x hx⟩

/-- Witness for C10: a passing datagram whose every fetch returns zero
endpoints still records the address, and a repeat of the same datagram
against the resulting state is discarded entirely. -/
theorem C10_witness :
    ((extractPM samplePMElems sampleZone).address ∉ ([] : List Str)) ∧
    (handleUDPMessage [] samplePMElems sampleZone emptyFetch).found =
      [(extractPM samplePMElems sampleZone).address] ∧
    handleUDPMessage (handleUDPMessage [] samplePMElems sampleZone emptyFetch).found
        samplePMElems sampleZone oneFetch =
      ⟨(handleUDPMessage [] samplePMElems sampleZone emptyFetch).found, [], []⟩ :=
  ⟨by decide,
   (C10_pass_marks_known_forever [] samplePMElems sampleZone emptyFetch).1
     (by decide) (Or.inl (by decide)) (by decide) (by decide) (by decide),
   (C10_pass_marks_known_forever [] samplePMElems sampleZone emptyFetch).2.1
     (handleUDPMessage [] samplePMElems sampleZone emptyFetch).found
     samplePMElems sampleZone oneFetch (by decide)⟩

/-! ### Claim C2: character-data handling of XMLDecode

The code at xml.go's CharData case sets the current element's text to
the trimmed run unconditionally, so a whitespace-only run overwrites any
earlier text with the empty string instead of being ignored; the proved
invariant is that every element's text equals its last delivered run,
trimmed (empty when no run was delivered). -/



/-- The last element of a list extended by one value. -/
theorem getLastD_app_single (l : List Str) (x : Str) :
    (l ++ [x]).getLastD [] = x := by
  simp [List.getLastD_eq_getLast?, List.getLast?_concat]

/-- Each decoder step preserves the text/runs invariant. -/
theorem decodeStep_inv (ns : List (Str × Str)) (st st2 : DecState) (t : XMLToken)
    (hinv : ∀ e ∈ st.elems, textRunsInv e)
    (h : decodeStep ns st t = some st2) :
    ∀ e ∈ st2.elems, textRunsInv e := by
  cases t with
  | startEl space loc =>
    simp only [decodeStep] at h
    cases h
    intro e he
    rcases List.mem_append.1 he with h1 | h1
    · exact hinv e h1
    · simp only [List.mem_singleton] at h1
      subst h1
      rfl
  | endEl =>
    simp only [decodeStep] at h
    cases hc : st.cur with
    | none => rw [hc] at h; dsimp only at h; exact absurd h (by simp)
    | some i =>
      rw [hc] at h
      dsimp only at h
      cases hg : st.elems.get? i with
      | none => rw [hg] at h; dsimp only at h; exact absurd h (by simp)
      | some e =>
        rw [hg] at h; dsimp only at h
        cases hp : e.par with
        | none =>
          rw [hp] at h; dsimp only at h
          cases h
          exact hinv
        | some p =>
          rw [hp] at h; dsimp only at h
          cases hg2 : st.elems.get? p with
          | none => rw [hg2] at h; dsimp only at h; exact absurd h (by simp)
          | some pe =>
            rw [hg2] at h; dsimp only at h
            cases h
            exact hinv
  | charData s =>
    simp only [decodeStep] at h
    cases hc : st.cur with
    | none => rw [hc] at h; dsimp only at h; cases h; exact hinv
    | some i =>
      rw [hc] at h
      dsimp only at h
      cases hg : st.elems.get? i with
      | none => rw [hg] at h; dsimp only at h; exact absurd h (by simp)
      | some e =>
        rw [hg] at h; dsimp only at h
        cases h
        intro e2 he2
        rcases List.mem_or_eq_of_mem_set he2 with h1 | h1
        · exact hinv e2 h1
        · subst h1
          show trimSpace s = trimSpace ((e.runs ++ [s]).getLastD [])
          rw [getLastD_app_single]

/-- The decoder fold preserves the text/runs invariant. -/
theorem foldDecode_inv (ns : List (Str × Str)) :
    ∀ (ts : List XMLToken) (st st2 : DecState),
      (∀ e ∈ st.elems, textRunsInv e) →
      List.foldlM (decodeStep ns) st ts = some st2 →
      ∀ e ∈ st2.elems, textRunsInv e := by
  intro ts
  induction ts with
  | nil =>
    intro st st2 hinv h
    simp only [List.foldlM_nil] at h
    cases h
    exact hinv
  | cons t rest ih =>
    intro st st2 hinv h
    simp only [List.foldlM_cons] at h
    cases h1 : decodeStep ns st t with
    | none => rw [h1] at h; exact absurd h (by simp)
    | some st1 =>
      rw [h1] at h
      exact ih st1 st2 (decodeStep_inv ns st st1 t hinv h1) h

/-- C2 (amended).  In `XMLDecode`, every character-data run overwrites
the current element's text with the run trimmed of surrounding
whitespace — last write wins, no concatenation, and a whitespace-only
run stores the empty string rather than being ignored: each element's
final text equals its last delivered run, trimmed (empty if none).  In
particular, an element whose last run is non-whitespace has exactly that
run, trimmed, as its text. -/
theorem C2_text_is_last_run_trimmed :
    ∀ (ns : List (Str × Str)) (ts : List XMLToken) (st : DecState),
      XMLDecode ns ts = some st →
      ∀ e ∈ st.elems, e.text = trimSpace (e.runs.getLastD []) :=
  fun ns ts st h => foldDecode_inv ns ts ⟨[], none, []⟩ st (by simp) h

/-- C2 counterexample: in `<a>hi<b/>` the outer element's text is "hi";
after the following whitespace-only run (`<a>hi<b/>  `) its text is the
empty string — the run did not leave the recorded text unchanged, so
whitespace-only runs in mixed content are not ignored. -/
theorem C2_counterexample :
    (XMLDecode [] c2TokensA).map (fun st => st.elems.map (·.text)) =
      some ["hi".toList, []] ∧
    XMLDecode [] c2TokensB = some c2StateB ∧
    c2ElemA.text = [] ∧ c2ElemA.runs = ["hi".toList, "  ".toList] := by
  refine ⟨by decide, by decide, rfl, rfl⟩

/-- Witness for C2 at the concrete token stream `c2TokensB`. -/
theorem C2_witness :
    XMLDecode [] c2TokensB = some c2StateB ∧ c2ElemA ∈ c2StateB.elems ∧
    c2ElemA.text = trimSpace (c2ElemA.runs.getLastD []) :=
  ⟨by decide, by decide,
   C2_text_is_last_run_trimmed [] c2TokensB c2StateB (by decide) c2ElemA (by decide)⟩

/-! ### String lemmas for the URL claims -/

/-- `lastIndexOf` misses characters that are absent. -/
theorem lastIndexOf_of_not_mem (c : Char) (l : Str) (h : c ∉ l) :
    lastIndexOf c l = none := by
  induction l with
  | nil => rfl
  | cons x xs ih =>
    simp only [List.mem_cons, not_or] at h
    simp only [lastIndexOf, ih h.2, if_neg (Ne.symm h.1)]

/-- `lastIndexOf` finds the last occurrence when the tail is clean. -/
theorem lastIndexOf_append_cons (xs ys : Str) (c : Char) (h : c ∉ ys) :
    lastIndexOf c (xs ++ c :: ys) = some xs.length := by
  induction xs with
  | nil => simp [lastIndexOf, lastIndexOf_of_not_mem c ys h]
  | cons x t ih => simp [lastIndexOf, ih, List.append_eq]

/-- Taking the length of the left part of an append yields it. -/
theorem take_append_len (xs ys : Str) : (xs ++ ys).take xs.length = xs := by
  induction xs with
  | nil => rfl
  | cons x t ih => simp only [List.cons_append, List.length_cons, List.take_succ_cons, ih]

/-- Dropping past the left part and one separator yields the tail. -/
theorem drop_append_len_succ (xs ys : Str) (c : Char) :
    (xs ++ c :: ys).drop (xs.length + 1) = ys := by
  induction xs with
  | nil => rfl
  | cons x t ih => simp [ih]

/-- The host/port split of a bracketed host with a ':'-free port cuts
exactly at the final ':'. -/
theorem splitHostPort_bracketed (lit port : Str) (h : ':' ∉ port) :
    splitHostPort ('[' :: lit ++ ']' :: ':' :: port) =
      ('[' :: lit ++ [']'], port) := by
  have hform : '[' :: lit ++ ']' :: ':' :: port =
      ('[' :: lit ++ [']']) ++ ':' :: port := by simp
  unfold splitHostPort
  rw [hform, lastIndexOf_append_cons _ _ _ h]
  dsimp only
  rw [take_append_len, drop_append_len_succ]

/-- `strings.Trim` with the two square brackets as cutset strips exactly
the enclosing brackets of a literal whose content avoids them. -/
theorem trimChars_bracketed (lit : Str) (h1 : lit ≠ [])
    (h2 : ∀ c ∈ lit, ¬(c = '[' ∨ c = ']')) :
    trimChars ['[', ']'] ('[' :: lit ++ [']']) = lit := by
  have hform : '[' :: lit ++ [']'] = '[' :: (lit ++ [']']) := by simp
  unfold trimChars
  rw [hform, List.dropWhile_cons]
  rw [if_pos (by simp)]
  cases hl : lit with
  | nil => exact absurd hl h1
  | cons x t =>
    have hx : ¬(x = '[' ∨ x = ']') := h2 x (by rw [hl]; exact List.mem_cons_self x t)
    rw [List.cons_append, List.dropWhile_cons, if_neg (by simpa using hx)]
    rw [show x :: (t ++ [']']) = (x :: t) ++ [']'] by simp, List.reverse_append]
    simp only [List.reverse_cons, List.reverse_nil, List.nil_append, List.singleton_append]
    rw [List.dropWhile_cons, if_pos (by simp)]
    cases hr : (x :: t).reverse with
    | nil => exact absurd (List.reverse_eq_nil_iff.mp hr) (by simp)
    | cons y t2 =>
      have hy : y ∈ (x :: t).reverse := by rw [hr]; exact List.mem_cons_self y t2
      rw [List.mem_reverse] at hy
      have hy2 : ¬(y = '[' ∨ y = ']') := h2 y (by rw [hl]; exact hy)
      rw [← List.reverse_cons, hr, List.dropWhile_cons, if_neg (by simpa using hy2)]
      rw [← hr, List.reverse_reverse]

/-- Host escaping distributes over append. -/
theorem escapeHost_append (a b : Str) :
    escapeHost (a ++ b) = escapeHost a ++ escapeHost b := by
  simp [escapeHost]

/-- Host escaping of a cons. -/
theorem escapeHost_cons (c : Char) (s : Str) :
    escapeHost (c :: s) =
      (if shouldEscapeHost c then pctEncode c else [c]) ++ escapeHost s := by
  simp [escapeHost]

/-- Host escaping is the identity on strings without escapable
characters. -/
theorem escapeHost_noop (s : Str) (h : ∀ c ∈ s, shouldEscapeHost c = false) :
    escapeHost s = s := by
  induction s with
  | nil => rfl
  | cons c t ih =>
    rw [escapeHost_cons, if_neg (by simp [h c (List.mem_cons_self c t)]),
      ih (fun x hx => h x (List.mem_cons_of_mem c hx))]
    rfl

/-- Path escaping of a cons. -/
theorem escapePath_cons (c : Char) (s : Str) :
    escapePath (c :: s) =
      (if shouldEscapePath c then pctEncode c else [c]) ++ escapePath s := by
  simp [escapePath]

/-- Path escaping is the identity on strings without escapable
characters. -/
theorem escapePath_noop (s : Str) (h : ∀ c ∈ s, shouldEscapePath c = false) :
    escapePath s = s := by
  induction s with
  | nil => rfl
  | cons c t ih =>
    rw [escapePath_cons, if_neg (by simp [h c (List.mem_cons_self c t)]),
      ih (fun x hx => h x (List.mem_cons_of_mem c hx))]
    rfl

/-- Canonical IP-literal characters are never escaped in a host. -/
theorem ipv6Char_not_escaped (c : Char) (h : isIPv6Char c = true) :
    shouldEscapeHost c = false := by
  unfold isIPv6Char at h
  unfold shouldEscapeHost
  simp only [Bool.or_eq_true, Bool.and_eq_true, decide_eq_true_eq] at h
  simp only [Bool.not_eq_false', Bool.or_eq_true, Bool.and_eq_true,
    decide_eq_true_eq]
  omega

/-- Canonical IP-literal characters are not brackets. -/
theorem ipv6Char_not_bracket (c : Char) (h : isIPv6Char c = true) :
    ¬(c = '[' ∨ c = ']') := by
  rintro (rfl | rfl) <;> exact absurd h (by decide)

/-- Digits are not the port separator. -/
theorem digit_not_colon (c : Char) (h : isDigitChar c = true) : c ≠ ':' := by
  rintro rfl
  exact absurd h (by decide)

/-- Digits are never escaped in a host. -/
theorem digit_not_escaped (c : Char) (h : isDigitChar c = true) :
    shouldEscapeHost c = false := by
  unfold isDigitChar at h
  unfold shouldEscapeHost
  simp only [Bool.and_eq_true, decide_eq_true_eq] at h
  simp only [Bool.not_eq_false', Bool.or_eq_true, Bool.and_eq_true,
    decide_eq_true_eq]
  omega

/-- Escape behaviour of the delimiter characters. -/
theorem pct_escape_val : shouldEscapeHost '%' = true ∧ pctEncode '%' = ['%', '2', '5'] ∧
    shouldEscapeHost '[' = false ∧ shouldEscapeHost ']' = false ∧
    shouldEscapeHost ':' = false := by
  refine ⟨by decide, by decide, by decide, by decide, by decide⟩

/-- `fixIpv6URLZone` on an absolute URL whose split host is bracketed
but whose bracket content does not parse as an IP: the bad-IPv6 error. -/
theorem fix_bracket_bad_ip (u : Str) (p : GoURL) (zone : Str)
    (hp : urlParse u = some p) (hs : p.scheme ≠ [])
    (hb : startsWithBr (splitHostPort p.host).1 = true)
    (hip : netParseIP (trimChars ['[', ']'] (splitHostPort p.host).1) = none) :
    fixIpv6URLZone u zone = .error "Invalid URL: bad IPv6 address" := by
  unfold fixIpv6URLZone
  rw [hp]
  dsimp only
  rw [if_neg hs, if_neg (by rw [hb]; simp), hip]

/-- `fixIpv6URLZone` on an absolute URL whose split host is not
bracketed (IPv4 or hostname): input returned unchanged. -/
theorem fix_not_bracket (u : Str) (p : GoURL) (zone : Str)
    (hp : urlParse u = some p) (hs : p.scheme ≠ [])
    (hb : startsWithBr (splitHostPort p.host).1 = false) :
    fixIpv6URLZone u zone = .ok u := by
  unfold fixIpv6URLZone
  rw [hp]
  dsimp only
  rw [if_neg hs, if_pos (by rw [hb]; simp)]

/-- `fixIpv6URLZone` on a bracketed non-link-local literal with an
explicit port: input returned unchanged. -/
theorem fix_bracket_not_link_local (u : Str) (sch lit port path zone : Str)
    (ip : IPAddr)
    (hp : urlParse u = some ⟨sch, '[' :: lit ++ ']' :: ':' :: port, path⟩)
    (hs : sch ≠ [])
    (hport : ':' ∉ port)
    (hlit0 : lit ≠ [])
    (hlitc : ∀ c ∈ lit, ¬(c = '[' ∨ c = ']'))
    (hip : netParseIP lit = some ip)
    (hll : isLinkLocalUnicast ip = false) :
    fixIpv6URLZone u zone = .ok u := by
  unfold fixIpv6URLZone
  rw [hp]
  dsimp only
  rw [if_neg hs, splitHostPort_bracketed lit port hport]
  dsimp only
  rw [if_neg (by rw [show startsWithBr ('[' :: lit ++ [']']) = true from rfl]; simp)]
  rw [trimChars_bracketed lit hlit0 hlitc, hip]
  dsimp only
  rw [if_neg (by rw [hll]; simp)]

/-- `fixIpv6URLZone` on a bracketed literal with explicit port whose
content fails `net.ParseIP` (as an already-zoned literal does): the
bad-IPv6 error. -/
theorem fix_zoned_style_error (u : Str) (sch lit port path zone : Str)
    (hp : urlParse u = some ⟨sch, '[' :: lit ++ ']' :: ':' :: port, path⟩)
    (hs : sch ≠ [])
    (hport : ':' ∉ port)
    (hlit0 : lit ≠ [])
    (hlitc : ∀ c ∈ lit, ¬(c = '[' ∨ c = ']'))
    (hip : netParseIP lit = none) :
    fixIpv6URLZone u zone = .error "Invalid URL: bad IPv6 address" := by
  unfold fixIpv6URLZone
  rw [hp]
  dsimp only
  rw [if_neg hs, splitHostPort_bracketed lit port hport]
  dsimp only
  rw [if_neg (by rw [show startsWithBr ('[' :: lit ++ [']']) = true from rfl]; simp)]
  rw [trimChars_bracketed lit hlit0 hlitc, hip]


/-! ### The output alphabet of the IP renderer (for claim C7) -/

/-- `Nat.digitChar` of a value below 16 is a digit or lowercase hex
letter. -/
theorem digitChar_hex : ∀ m, m < 16 → isIPv6Char (Nat.digitChar m) = true := by
  decide

/-- Every character produced by `Nat.toDigitsCore` with base at most 16
is a digit or lowercase hex letter. -/
theorem toDigitsCore_chars :
    ∀ (fuel b n : Nat), 0 < b → b ≤ 16 → ∀ (acc : List Char),
      (∀ c ∈ acc, isIPv6Char c = true) →
      ∀ c ∈ Nat.toDigitsCore b fuel n acc, isIPv6Char c = true := by
  intro fuel
  induction fuel with
  | zero =>
    intro b n hb0 hb1 acc hacc c hc
    exact hacc c hc
  | succ f ih =>
    intro b n hb0 hb1 acc hacc c hc
    have hd : isIPv6Char (Nat.digitChar (n % b)) = true :=
      digitChar_hex _ (Nat.lt_of_lt_of_le (Nat.mod_lt n hb0) hb1)
    have hacc2 : ∀ c ∈ Nat.digitChar (n % b) :: acc, isIPv6Char c = true := by
      intro c2 hc2
      rcases List.mem_cons.1 hc2 with rfl | hc2
      · exact hd
      · exact hacc c2 hc2
    unfold Nat.toDigitsCore at hc
    dsimp only at hc
    split at hc
    · exact hacc2 c hc
    · exact ih b (n / b) hb0 hb1 _ hacc2 c hc

/-- Every character of `Nat.toDigits` with base at most 16 is a digit
or lowercase hex letter. -/
theorem toDigits_chars (b n : Nat) (hb0 : 0 < b) (hb1 : b ≤ 16) :
    ∀ c ∈ Nat.toDigits b n, isIPv6Char c = true :=
  toDigitsCore_chars (n + 1) b n hb0 hb1 [] (by intro c hc; cases hc)

/-- Hex group rendering stays in the IP-literal alphabet. -/
theorem hexGroup_chars (g : Nat) : ∀ c ∈ hexGroup g, isIPv6Char c = true :=
  toDigits_chars 16 g (by omega) (by omega)

/-- Decimal byte rendering stays in the IP-literal alphabet. -/
theorem decByte_chars (n : Nat) : ∀ c ∈ decByte n, isIPv6Char c = true :=
  toDigits_chars 10 n (by omega) (by omega)

/-- Colon-joined groups stay in the IP-literal alphabet. -/
theorem joinColon_chars : ∀ (gs : List Nat), ∀ c ∈ joinColon gs, isIPv6Char c = true := by
  intro gs
  induction gs with
  | nil => intro c hc; cases hc
  | cons g rest ih =>
    cases rest with
    | nil =>
      intro c hc
      exact hexGroup_chars g c hc
    | cons r t =>
      intro c hc
      rw [show joinColon (g :: r :: t) = hexGroup g ++ ':' :: joinColon (r :: t)
        from rfl] at hc
      rcases List.mem_append.1 hc with hc | hc
      · exact hexGroup_chars g c hc
      · rcases List.mem_cons.1 hc with rfl | hc
        · decide
        · exact ih c hc

/-- A successful `ipTo4` yields exactly four bytes. -/
theorem ipTo4_four (ip : IPAddr) (l : List Nat) (h : ipTo4 ip = some l) :
    ∃ a b c d, l = [a, b, c, d] := by
  unfold ipTo4 at h
  split at h
  · rename_i hcond
    cases h
    have hlen : (ip.drop 12).length = 4 := by
      rw [List.length_drop, hcond.1]
    cases hd : ip.drop 12 with
    | nil => rw [hd] at hlen; cases hlen
    | cons a t1 =>
      cases t1 with
      | nil => rw [hd] at hlen; cases hlen
      | cons b t2 =>
        cases t2 with
        | nil => rw [hd] at hlen; cases hlen
        | cons c t3 =>
          cases t3 with
          | nil => rw [hd] at hlen; cases hlen
          | cons d t4 =>
            cases t4 with
            | nil => exact ⟨a, b, c, d, rfl⟩
            | cons e t5 => rw [hd] at hlen; simp at hlen
  · cases h

/-- Every character of `net.IP.String`'s output is a digit, lowercase
hex letter, ':' or '.'. -/
theorem ipString_chars (ip : IPAddr) : ∀ c ∈ ipString ip, isIPv6Char c = true := by
  intro c hc
  unfold ipString at hc
  cases h4 : ipTo4 ip with
  | some l =>
    obtain ⟨a, b, c2, d, rfl⟩ := ipTo4_four ip l h4
    rw [h4] at hc
    dsimp only at hc
    simp only [List.mem_append, List.mem_cons] at hc
    rcases hc with ((hc | rfl | hc) | rfl | hc) | rfl | hc
    · exact decByte_chars a c hc
    · decide
    · exact decByte_chars b c hc
    · decide
    · exact decByte_chars c2 c hc
    · decide
    · exact decByte_chars d c hc
  | none =>
    rw [h4] at hc
    dsimp only at hc
    cases hbz : bestZeroRun (toGroups ip) with
    | none =>
      rw [hbz] at hc
      exact joinColon_chars _ c hc
    | some sl =>
      rw [hbz] at hc
      cases sl with
      | mk s l =>
        dsimp only at hc
        rcases List.mem_append.1 hc with hc | hc
        · exact joinColon_chars _ c hc
        rcases List.mem_cons.1 hc with rfl | hc
        · decide
        rcases List.mem_cons.1 hc with rfl | hc
        · decide
        · exact joinColon_chars _ c hc

/-- `fixIpv6URLZone` on a bracketed link-local literal with explicit
port: the host is rebuilt as `[ip%zone]:port` from `net.IP.String`'s
canonical rendering of the literal, and the re-rendered URL escapes the
zone delimiter to %25. -/
theorem fix_link_local (u : Str) (sch lit port path zone : Str) (ip : IPAddr)
    (hp : urlParse u = some ⟨sch, '[' :: lit ++ ']' :: ':' :: port, path⟩)
    (hs : sch ≠ [])
    (hlit0 : lit ≠ [])
    (hlitc : ∀ c ∈ lit, ¬(c = '[' ∨ c = ']'))
    (hport : ∀ c ∈ port, isDigitChar c = true)
    (hip : netParseIP lit = some ip)
    (hll : isLinkLocalUnicast ip = true)
    (hzone : ∀ c ∈ zone, shouldEscapeHost c = false)
    (hpath : ∀ c ∈ path, shouldEscapePath c = false) :
    fixIpv6URLZone u zone =
      .ok (sch ++ ':' :: '/' :: '/' ::
        ('[' :: ipString ip ++ '%' :: '2' :: '5' :: zone ++ ']' :: ':' :: port) ++ path) := by
  have hpc : ':' ∉ port := fun hmem => absurd (hport ':' hmem) (by decide)
  have eip : escapeHost (ipString ip) = ipString ip :=
    escapeHost_noop _ (fun c hc => ipv6Char_not_escaped c (ipString_chars ip c hc))
  have ezone : escapeHost zone = zone := escapeHost_noop zone hzone
  have eport : escapeHost port = port :=
    escapeHost_noop port (fun c hc => digit_not_escaped c (hport c hc))
  unfold fixIpv6URLZone
  rw [hp]
  dsimp only
  rw [if_neg hs, splitHostPort_bracketed lit port hpc]
  dsimp only
  rw [if_neg (by rw [show startsWithBr ('[' :: lit ++ [']']) = true from rfl]; simp)]
  rw [trimChars_bracketed lit hlit0 hlitc, hip]
  dsimp only
  rw [if_pos (by rw [hll])]
  unfold urlString
  dsimp only
  rw [escapePath_noop path hpath]
  have c1 : (if shouldEscapeHost '[' = true then pctEncode '[' else ['[']) = ['['] := rfl
  have c2 : (if shouldEscapeHost '%' = true then pctEncode '%' else ['%']) =
    ['%', '2', '5'] := rfl
  have c3 : (if shouldEscapeHost ']' = true then pctEncode ']' else [']']) = [']'] := rfl
  have c4 : (if shouldEscapeHost ':' = true then pctEncode ':' else [':']) = [':'] := rfl
  simp only [escapeHost_append, escapeHost_cons, eip, ezone, eport, c1, c2, c3, c4]
  simp [List.append_assoc]

/-- C1 (amended).  Behaviour of `fixIpv6URLZone` on the three host
classes of the claim: (1) a bracketed literal with explicit port whose
bracket content fails `net.ParseIP` — in particular an already-zoned
link-local literal, since `net.ParseIP` rejects zones — produces the
bad-IPv6 `InvalidURL` error rather than the unchanged URL; (2) a URL
whose split host is not bracketed (an IPv4 address or hostname) is
returned unchanged; (3) a bracketed global (non-link-local) literal with
an explicit port is returned unchanged. -/
theorem C1_zone_repair_behavior :
    (∀ (u : Str) (sch lit port path zone : Str),
      urlParse u = some ⟨sch, '[' :: lit ++ ']' :: ':' :: port, path⟩ →
      sch ≠ [] → ':' ∉ port → lit ≠ [] →
      (∀ c ∈ lit, ¬(c = '[' ∨ c = ']')) →
      netParseIP lit = none →
      fixIpv6URLZone u zone = .error "Invalid URL: bad IPv6 address") ∧
    (∀ (u : Str) (p : GoURL) (zone : Str),
      urlParse u = some p → p.scheme ≠ [] →
      startsWithBr (splitHostPort p.host).1 = false →
      fixIpv6URLZone u zone = .ok u) ∧
    (∀ (u : Str) (sch lit port path zone : Str) (ip : IPAddr),
      urlParse u = some ⟨sch, '[' :: lit ++ ']' :: ':' :: port, path⟩ →
      sch ≠ [] → ':' ∉ port → lit ≠ [] →
      (∀ c ∈ lit, ¬(c = '[' ∨ c = ']')) →
      netParseIP lit = some ip → isLinkLocalUnicast ip = false →
      fixIpv6URLZone u zone = .ok u) :=
  ⟨fun u sch lit port path zone hp hs hpc h0 hc hip =>
      fix_zoned_style_error u sch lit port path zone hp hs hpc h0 hc hip,
   fun u p zone hp hs hb => fix_not_bracket u p zone hp hs hb,
   fun u sch lit port path zone ip hp hs hpc h0 hc hip hll =>
      fix_bracket_not_link_local u sch lit port path zone ip hp hs hpc h0 hc hip hll⟩

/-- C1 counterexample: repairing the already-zoned link-local URL
`http://[fe80::1%25eth0]:5358/x` with its own zone returns the bad-IPv6
error, not the same URL; and the global-IPv6 URL `http://[2001:db8::1]/x`
(no port) also errors rather than being returned unchanged. -/
theorem C1_counterexample :
    fixIpv6URLZone "http://[fe80::1%25eth0]:5358/x".toList "eth0".toList =
      .error "Invalid URL: bad IPv6 address" ∧
    fixIpv6URLZone "http://[2001:db8::1]/x".toList "eth0".toList =
      .error "Invalid URL: bad IPv6 address" :=
  ⟨by rfl, by rfl⟩

/-- Witness for C1 at the three concrete inputs of the amended claim. -/
theorem C1_witness :
    netParseIP "fe80::1%eth0".toList = none ∧
    fixIpv6URLZone "http://[fe80::1%25eth0]:5358/x".toList "eth0".toList =
      .error "Invalid URL: bad IPv6 address" ∧
    fixIpv6URLZone "http://192.168.1.102:5358/WSDScanner".toList "eth0".toList =
      .ok "http://192.168.1.102:5358/WSDScanner".toList ∧
    fixIpv6URLZone "http://[2001:db8::1]:80/x".toList "eth0".toList =
      .ok "http://[2001:db8::1]:80/x".toList :=
  ⟨by rfl,
   C1_zone_repair_behavior.1 "http://[fe80::1%25eth0]:5358/x".toList
     "http".toList "fe80::1%eth0".toList "5358".toList "/x".toList "eth0".toList
     (by rfl) (by decide) (by decide) (by decide) (by decide) (by rfl),
   C1_zone_repair_behavior.2.1 "http://192.168.1.102:5358/WSDScanner".toList
     ⟨"http".toList, "192.168.1.102:5358".toList, "/WSDScanner".toList⟩
     "eth0".toList (by rfl) (by decide) (by rfl),
   C1_zone_repair_behavior.2.2 "http://[2001:db8::1]:80/x".toList
     "http".toList "2001:db8::1".toList "80".toList "/x".toList "eth0".toList
     ip2001db8 (by rfl) (by decide) (by decide) (by decide) (by decide)
     (by rfl) (by rfl)⟩

/-- C7 counterexample: for `http://[FE80::1]:5358/x` (a bracketed IPv6
link-local unicast literal without a zone and with an explicit port, in
non-canonical spelling) the function returns the URL with the literal
canonicalized to `fe80::1`, not the same URL with only the zone
inserted: the frozen claim's expected output `http://[FE80::1%25eth0]:5358/x`
is not produced. -/
theorem C7_counterexample :
    fixIpv6URLZone "http://[FE80::1]:5358/x".toList "eth0".toList =
      .ok "http://[fe80::1%25eth0]:5358/x".toList ∧
    ¬ (fixIpv6URLZone "http://[FE80::1]:5358/x".toList "eth0".toList =
      .ok "http://[FE80::1%25eth0]:5358/x".toList) := by
  refine ⟨by rfl, ?_⟩
  intro h
  rw [show fixIpv6URLZone "http://[FE80::1]:5358/x".toList "eth0".toList =
    .ok "http://[fe80::1%25eth0]:5358/x".toList from rfl] at h
  exact absurd (Except.ok.inj h) (by decide)

/-- C7 (amended).  For every absolute URL whose host is a bracketed
IPv6 link-local unicast literal without a zone and with an explicit
port, `fixIpv6URLZone` with zone z rewrites the host to
`[canonical%25z]:port`, where `canonical` is `net.IP.String`'s canonical
rendering of the literal (lowercase, zero-run compressed) and the zone
delimiter is percent-encoded; when the literal is already canonical this
is exactly the same URL with the zone inserted — repairing
`http://[fe80::1]:5358/x` with zone `eth0` yields
`http://[fe80::1%25eth0]:5358/x`. -/
theorem C7_link_local_zone_repair :
    ∀ (u : Str) (sch lit port path zone : Str) (ip : IPAddr),
      urlParse u = some ⟨sch, '[' :: lit ++ ']' :: ':' :: port, path⟩ →
      sch ≠ [] → lit ≠ [] →
      (∀ c ∈ lit, ¬(c = '[' ∨ c = ']')) →
      (∀ c ∈ port, isDigitChar c = true) →
      netParseIP lit = some ip →
      isLinkLocalUnicast ip = true →
      (∀ c ∈ zone, shouldEscapeHost c = false) →
      (∀ c ∈ path, shouldEscapePath c = false) →
      fixIpv6URLZone u zone =
        .ok (sch ++ ':' :: '/' :: '/' ::
          ('[' :: ipString ip ++ '%' :: '2' :: '5' :: zone ++ ']' :: ':' :: port) ++ path) :=
  fun u sch lit port path zone ip hp hs hlit0 hlitc hport hip hll hzone hpath =>
    fix_link_local u sch lit port path zone ip hp hs hlit0 hlitc hport hip
      hll hzone hpath

/-- Witness for C7: `http://[fe80::1]:5358/x` (the claim's canonical
example) becomes `http://[fe80::1%25eth0]:5358/x`, and the
non-canonical `http://[FE80::1]:5358/x` becomes the same canonicalized
result. -/
theorem C7_witness :
    netParseIP "fe80::1".toList = some ipFe80 ∧
    isLinkLocalUnicast ipFe80 = true ∧
    fixIpv6URLZone "http://[fe80::1]:5358/x".toList "eth0".toList =
      .ok "http://[fe80::1%25eth0]:5358/x".toList ∧
    fixIpv6URLZone "http://[FE80::1]:5358/x".toList "eth0".toList =
      .ok "http://[fe80::1%25eth0]:5358/x".toList :=
  ⟨by rfl, by rfl,
   (C7_link_local_zone_repair "http://[fe80::1]:5358/x".toList "http".toList
      "fe80::1".toList "5358".toList "/x".toList "eth0".toList ipFe80
      (by rfl) (by decide) (by decide) (by decide) (by decide)
      (by rfl) (by rfl) (by decide) (by decide)).trans (by rfl),
   (C7_link_local_zone_repair "http://[FE80::1]:5358/x".toList "http".toList
      "FE80::1".toList "5358".toList "/x".toList "eth0".toList ipFe80
      (by rfl) (by decide) (by decide) (by decide) (by decide)
      (by rfl) (by rfl) (by decide) (by decide)).trans (by rfl)⟩
/-- C9 (amended).  For an absolute URL with a bracketed IPv6 host, when
the host/port split at the last ':' leaves a fragment whose bracket
content fails to parse as an IP address — as happens for the claim's
example `http://[fe80::1]/x`, where the split cuts inside the literal —
`fixIpv6URLZone` returns the bad-IPv6 `InvalidURL` error.  (Without the
parse-failure condition the claim is false: see the counterexample,
where the cut fragment happens to be a valid IPv6 address and the URL is
returned unchanged.) -/
theorem C9_no_port_split_error :
    ∀ (u : Str) (p : GoURL) (zone : Str),
      urlParse u = some p → p.scheme ≠ [] →
      startsWithBr (splitHostPort p.host).1 = true →
      netParseIP (trimChars ['[', ']'] (splitHostPort p.host).1) = none →
      fixIpv6URLZone u zone = .error "Invalid URL: bad IPv6 address" :=
  fun u p zone hp hs hb hip => fix_bracket_bad_ip u p zone hp hs hb hip

/-- C9 counterexample: `http://[1::2:3]/x` has a bracketed IPv6 host and
no port, yet `fixIpv6URLZone` returns it unchanged instead of an error —
the fragment left of the last ':' trims to `1::2`, which parses as a
(non-link-local) IP address. -/
theorem C9_counterexample :
    fixIpv6URLZone "http://[1::2:3]/x".toList "eth0".toList =
      .ok "http://[1::2:3]/x".toList := by rfl

/-- Witness for C9 at the claim's example `http://[fe80::1]/x`. -/
theorem C9_witness :
    startsWithBr (splitHostPort "[fe80::1]".toList).1 = true ∧
    netParseIP (trimChars ['[', ']'] (splitHostPort "[fe80::1]".toList).1) = none ∧
    fixIpv6URLZone "http://[fe80::1]/x".toList "eth0".toList =
      .error "Invalid URL: bad IPv6 address" :=
  ⟨by rfl, by rfl,
   C9_no_port_split_error "http://[fe80::1]/x".toList
     ⟨"http".toList, "[fe80::1]".toList, "/x".toList⟩ "eth0".toList
     (by rfl) (by decide) (by rfl) (by rfl)⟩
